/-
  Verification of the NN accelerator driver
  (nn_accelerator_project/software/nn_driver.c / nn_driver.h).

  Shallow embedding:
  * The memory-mapped register file written by the driver is a record of the
    registers the driver writes (CTRL and the four topology registers).
  * The device-controlled DONE status bit is modelled as a boolean trace
    `done : Nat → Bool`, indexed by the number of NN_IsDone polls performed
    so far.
  * `u32`/`u16` quantities are `Nat` with an explicit `% 2 ^ 32` where the C
    code can overflow (the `elapsed` accumulator of NN_WaitDone); `s16`
    samples are `Int`.
  * `float` is modelled by `ℚ` (every `s16 / 2048` is exact in binary32, and
    the claims under study concern branch structure and exact values, not
    rounding); the truncation-toward-zero `(s16)` cast of FLOAT_TO_FIXED is
    modelled explicitly, with wraparound (two-complement style) outside the s16 range.
  * The potentially endless poll loop of NN_WaitDone is given fuel
    (one unit per loop iteration); `none` means the fuel ran out.
-/
import Mathlib

/-! ## Constants from nn_driver.h -/

def NN_CTRL_ENABLE : Nat := 1

def NN_CTRL_START : Nat := 2

def NN_CTRL_SOFT_RESET : Nat := 4

def NN_FRAC_BITS : Nat := 11

def NN_SCALE : Nat := 2 ^ NN_FRAC_BITS

def NN_BASEADDR : Nat := 0x43C00000

def NN_DEFAULT_NUM_IN : Nat := 784

def NN_DEFAULT_NUM_H1 : Nat := 16

def NN_DEFAULT_NUM_H2 : Nat := 16

def NN_DEFAULT_NUM_OUT : Nat := 10

/-- `2 ^ 32`, the modulus of the `u32` arithmetic of the C driver. -/
def U32 : Nat := 4294967296

/-! ## Data model (nn_driver.h): NN_Config and the register file -/

/-- The `NN_Config` struct of nn_driver.h.  `u32`/`u16`/`u8` fields are
`Nat`; `initialized` is the `u8` flag the driver sets to 0 or 1. -/
structure NN_Config where
  base_addr : Nat
  num_inputs : Nat
  num_hidden1 : Nat
  num_hidden2 : Nat
  num_outputs : Nat
  initialized : Nat

/-- The registers the driver writes (CTRL plus the four topology
registers); STATUS is device-controlled and modelled separately as the
`done` trace. -/
structure RegFile where
  ctrl : Nat
  num_in : Nat
  num_h1 : Nat
  num_h2 : Nat
  num_out : Nat

/-- Driver-visible state: the written registers plus the module-level
`g_config`. -/
structure DriverState where
  regs : RegFile
  config : NN_Config

/-- The initial value of the module variable `g_config` in nn_driver.c. -/
def g_config_init : NN_Config :=
  { base_addr := NN_BASEADDR
    num_inputs := NN_DEFAULT_NUM_IN
    num_hidden1 := NN_DEFAULT_NUM_H1
    num_hidden2 := NN_DEFAULT_NUM_H2
    num_outputs := NN_DEFAULT_NUM_OUT
    initialized := 0 }

/-! ## Controller operations (nn_driver.c) -/

/-- `NN_Reset`: write SOFT_RESET to CTRL, settle, write 0 to CTRL, settle.
The two fixed 10µs settle delays have no effect on driver-visible state. -/
def NN_Reset (st : DriverState) : DriverState :=
  let st1 := { st with regs := { st.regs with ctrl := NN_CTRL_SOFT_RESET } }
  { st1 with regs := { st1.regs with ctrl := 0 } }

/-- `NN_Configure`: write the four topology registers, then update the four
topology fields of `g_config` to match. -/
def NN_Configure (st : DriverState) (num_in num_h1 num_h2 num_out : Nat) :
    DriverState :=
  { regs := { st.regs with
      num_in := num_in, num_h1 := num_h1, num_h2 := num_h2,
      num_out := num_out }
    config := { st.config with
      num_inputs := num_in, num_hidden1 := num_h1, num_hidden2 := num_h2,
      num_outputs := num_out } }

/-- `NN_Init`: if a config is supplied, `memcpy` it over `g_config`
wholesale; then soft reset, push the topology held in `g_config` to the four
configuration registers, set the initialized flag, and return 0. -/
def NN_Init (config : Option NN_Config) (st : DriverState) :
    Int × DriverState :=
  let st0 :=
    match config with
    | some c => { st with config := c }
    | none => st
  let st1 := NN_Reset st0
  let st2 := NN_Configure st1 st1.config.num_inputs st1.config.num_hidden1
    st1.config.num_hidden2 st1.config.num_outputs
  let st3 := { st2 with config := { st2.config with initialized := 1 } }
  (0, st3)

/-- `NN_Start`: read-modify-write of CTRL, OR-ing in ENABLE and START. -/
def NN_Start (st : DriverState) : DriverState :=
  { st with regs := { st.regs with
      ctrl := Nat.lor st.regs.ctrl (Nat.lor NN_CTRL_ENABLE NN_CTRL_START) } }

/-- The poll loop of `NN_WaitDone`.  `k` counts the NN_IsDone polls (equal
to the number of `usleep(100)` calls performed so far), `elapsed` is the
`u32` accumulator of the C code, and `fuel` bounds the remaining
iterations (`none` = fuel exhausted, the C loop would still be running).
A `some (r, k)` result is return value `r` after `k` sleeps. -/
def waitLoop (done : Nat → Bool) (timeout_us : Nat) :
    Nat → Nat → Nat → Option (Int × Nat)
  | _, _, 0 => none
  | k, elapsed, fuel + 1 =>
    if done k then some (0, k)
    else if 0 < timeout_us ∧ timeout_us ≤ elapsed then some (-1, k)
    else waitLoop done timeout_us (k + 1) ((elapsed + 100) % U32) fuel

/-- `NN_WaitDone`: poll DONE every 100µs, accumulating elapsed time in a
`u32`, until DONE is observed (return 0) or, when `timeout_us > 0`, the
accumulator reaches the timeout (return -1). -/
def NN_WaitDone (done : Nat → Bool) (timeout_us : Nat) (fuel : Nat) :
    Option (Int × Nat) :=
  waitLoop done timeout_us 0 0 fuel

/-- Fuel sufficient for `NN_WaitDone` with the fixed 10-second timeout of
`NN_RunInference`: the loop returns by iteration 100000 (first `k` with
`100 * k ≥ 10000000`) whenever DONE never appears, so 100001 iterations
always suffice. -/
def RUN_FUEL : Nat := 100001

/-- `NN_RunInference`: lazily `NN_Init(NULL)` when `g_config.initialized`
is 0, then `NN_Start`, then `NN_WaitDone(10000000)`; return -1 exactly
when the wait returned a negative value.  The `none` fuel-exhaustion arm
is unreachable at `RUN_FUEL` (proved below). -/
def NN_RunInference (done : Nat → Bool) (st : DriverState) :
    Int × DriverState :=
  let st1 := if st.config.initialized = 0 then (NN_Init none st).2 else st
  let st2 := NN_Start st1
  match NN_WaitDone done 10000000 RUN_FUEL with
  | some (r, _) => if r < 0 then (-1, st2) else (0, st2)
  | none => (0, st2)

/-! ## Result interpreter (nn_driver.c) -/

/-- The scan loop of `NN_Classify`: `i` is the index of the head of the
remaining list, `max_idx`/`max_val` the best so far; a strictly greater
element replaces the current maximum. -/
def classifyLoop : List Int → Nat → Nat → Int → Nat × Int
  | [], _, max_idx, max_val => (max_idx, max_val)
  | v :: rest, i, max_idx, max_val =>
    if max_val < v then classifyLoop rest (i + 1) i v
    else classifyLoop rest (i + 1) max_idx max_val

/-- `NN_Classify`: arg-max over the output vector, starting from
`max_idx = 0`, `max_val = outputs[0]`.  The C code reads `outputs[0]`
unconditionally, so the empty case (undefined behaviour in C) is mapped
to 0. -/
def NN_Classify (outputs : List Int) : Nat :=
  match outputs with
  | [] => 0
  | v :: rest => (classifyLoop rest 1 0 v).1

/-- `FIXED_TO_FLOAT(x) = ((float)(x) / NN_SCALE)`, exact in ℚ. -/
def FIXED_TO_FLOAT (x : Int) : ℚ := (x : ℚ) / (NN_SCALE : ℚ)

/-- Truncation toward zero of a rational, the behaviour of the
float-to-integer cast in C. -/
def truncQ (q : ℚ) : Int := if 0 ≤ q then ⌊q⌋ else ⌈q⌉

/-- Wrap of an integer into the `s16` range (two-complement style); the identity
on [-32768, 32767]. -/
def toS16 (n : Int) : Int := (n + 32768) % 65536 - 32768

/-- `FLOAT_TO_FIXED(x) = ((s16)((x) * NN_SCALE))`: multiply by 2048, then
truncate toward zero into an `s16`. -/
def FLOAT_TO_FIXED (x : ℚ) : Int := toS16 (truncQ (x * (NN_SCALE : ℚ)))

/-- The summation loop of `NN_GetConfidence`:
`sum += FIXED_TO_FLOAT(outputs[i])` over the whole vector. -/
def confSum (outputs : List Int) : ℚ :=
  outputs.foldl (fun s v => s + FIXED_TO_FLOAT v) 0

/-- `NN_GetConfidence`: convert the selected sample to float; if the float
sum of all samples is strictly positive return `value / sum`, otherwise
return `value` unmodified. -/
def NN_GetConfidence (outputs : List Int) (class_idx : Nat) : ℚ :=
  let value := FIXED_TO_FLOAT (outputs.getD class_idx 0)
  let sum := confSum outputs
  if 0 < sum then value / sum else value

/-! ## Concrete DONE traces used by the witnesses -/

/-- A device that never sets DONE. -/
def neverDone : Nat → Bool := fun _ => false

/-- A device whose DONE bit is first observed on the third poll. -/
def doneAtTwo : Nat → Bool := fun k => k == 2

/-- A device whose DONE bit is first observed on poll 10 — exactly the
poll at which a 1000µs deadline has accumulated. -/
def doneAtTen : Nat → Bool := fun k => k == 10

/-- A device whose DONE bit is set from the start. -/
def alwaysDone : Nat → Bool := fun _ => true

/-! ## Helper lemmas about the NN_WaitDone poll loop -/

theorem U32_pos : 0 < U32 := by decide

/-- Any result the poll loop returns is 0 or -1. -/
theorem waitLoop_vals (done : Nat → Bool) (t : Nat) :
    ∀ fuel k e r, waitLoop done t k e fuel = some r → r.1 = 0 ∨ r.1 = -1 := by
  intro fuel
  induction fuel with
  | zero => intro k e r h; simp [waitLoop] at h
  | succ n ih =>
    intro k e r h
    simp only [waitLoop] at h
    split at h
    · injection h with h2; subst h2; exact Or.inl rfl
    · split at h
      · injection h with h2; subst h2; exact Or.inr rfl
      · exact ih _ _ _ h

/-- If DONE first appears `n` polls in, and no deadline fires before that,
the loop returns success after exactly `n` sleeps.  The DONE test comes
before the deadline test, so nothing is assumed about the deadline at
poll `n` itself. -/
theorem waitLoop_success (done : Nat → Bool) (t : Nat) :
    ∀ n fuel k0 e, n < fuel → e < U32 →
      done (k0 + n) = true →
      (∀ j, j < n → done (k0 + j) = false) →
      (∀ j, j < n → ¬(0 < t ∧ t ≤ (e + 100 * j) % U32)) →
      waitLoop done t k0 e fuel = some (0, k0 + n) := by
  intro n
  induction n with
  | zero =>
    intro fuel k0 e hf _ hd _ _
    obtain ⟨m, rfl⟩ : ∃ m, fuel = m + 1 := ⟨fuel - 1, by omega⟩
    simp only [Nat.add_zero] at hd
    simp [waitLoop, hd]
  | succ n ih =>
    intro fuel k0 e hf he hd hfalse hdl
    obtain ⟨m, rfl⟩ : ∃ m, fuel = m + 1 := ⟨fuel - 1, by omega⟩
    have h0 : done k0 = false := by simpa using hfalse 0 (by omega)
    have hnd : ¬(0 < t ∧ t ≤ e) := by
      have h1 := hdl 0 (by omega)
      simpa [Nat.mod_eq_of_lt he] using h1
    simp only [waitLoop, h0, Bool.false_eq_true, if_false, if_neg hnd]
    have hk : k0 + (n + 1) = (k0 + 1) + n := by omega
    rw [hk]
    refine ih m (k0 + 1) ((e + 100) % U32) (by omega) (Nat.mod_lt _ U32_pos)
      (by rw [show k0 + 1 + n = k0 + (n + 1) by omega]; exact hd)
      (fun j hj => by
        rw [show k0 + 1 + j = k0 + (j + 1) by omega]
        exact hfalse (j + 1) (by omega))
      (fun j hj => by
        rw [Nat.mod_add_mod, show e + 100 + 100 * j = e + 100 * (j + 1) by ring]
        exact hdl (j + 1) (by omega))

/-- If DONE stays low through poll `n` and the deadline first fires at
poll `n`, the loop returns -1 after exactly `n` sleeps. -/
theorem waitLoop_timeout (done : Nat → Bool) (t : Nat) :
    ∀ n fuel k0 e, n < fuel → e < U32 →
      (∀ j, j ≤ n → done (k0 + j) = false) →
      (∀ j, j < n → ¬(0 < t ∧ t ≤ (e + 100 * j) % U32)) →
      0 < t → t ≤ (e + 100 * n) % U32 →
      waitLoop done t k0 e fuel = some (-1, k0 + n) := by
  intro n
  induction n with
  | zero =>
    intro fuel k0 e hf he hfalse _ ht hle
    obtain ⟨m, rfl⟩ : ∃ m, fuel = m + 1 := ⟨fuel - 1, by omega⟩
    have h0 : done k0 = false := by simpa using hfalse 0 (by omega)
    have hdl : 0 < t ∧ t ≤ e := by
      refine ⟨ht, ?_⟩
      simpa [Nat.mod_eq_of_lt he] using hle
    simp [waitLoop, h0, hdl]
  | succ n ih =>
    intro fuel k0 e hf he hfalse hdl ht hle
    obtain ⟨m, rfl⟩ : ∃ m, fuel = m + 1 := ⟨fuel - 1, by omega⟩
    have h0 : done k0 = false := by simpa using hfalse 0 (by omega)
    have hnd : ¬(0 < t ∧ t ≤ e) := by
      have h1 := hdl 0 (by omega)
      simpa [Nat.mod_eq_of_lt he] using h1
    simp only [waitLoop, h0, Bool.false_eq_true, if_false, if_neg hnd]
    have hk : k0 + (n + 1) = (k0 + 1) + n := by omega
    rw [hk]
    refine ih m (k0 + 1) ((e + 100) % U32) (by omega) (Nat.mod_lt _ U32_pos)
      (fun j hj => by
        rw [show k0 + 1 + j = k0 + (j + 1) by omega]
        exact hfalse (j + 1) (by omega))
      (fun j hj => by
        rw [Nat.mod_add_mod, show e + 100 + 100 * j = e + 100 * (j + 1) by ring]
        exact hdl (j + 1) (by omega))
      ht
      (by rw [Nat.mod_add_mod, show e + 100 + 100 * n = e + 100 * (n + 1) by ring]
          exact hle)

/-- Against a device that never raises DONE, every returned result is -1. -/
theorem waitLoop_never (t : Nat) :
    ∀ fuel k e r, waitLoop neverDone t k e fuel = some r → r.1 = -1 := by
  intro fuel
  induction fuel with
  | zero => intro k e r h; simp [waitLoop] at h
  | succ n ih =>
    intro k e r h
    simp only [waitLoop, neverDone, Bool.false_eq_true, if_false] at h
    split at h
    · injection h with h2; subst h2; rfl
    · exact ih _ _ _ h

/-- Against a never-done device the loop concludes (within its fuel) iff
the wrapping `u32` accumulator reaches the timeout at some poll. -/
theorem waitLoop_isSome_never (t : Nat) (ht : 0 < t) :
    ∀ fuel k e, e < U32 →
      ((waitLoop neverDone t k e fuel).isSome ↔
        ∃ j, j < fuel ∧ t ≤ (e + 100 * j) % U32) := by
  intro fuel
  induction fuel with
  | zero => intro k e _; simp [waitLoop]
  | succ n ih =>
    intro k e he
    simp only [waitLoop, neverDone, Bool.false_eq_true, if_false]
    by_cases hd : 0 < t ∧ t ≤ e
    · rw [if_pos hd]
      simp only [Option.isSome_some, true_iff]
      exact ⟨0, by omega, by simpa [Nat.mod_eq_of_lt he] using hd.2⟩
    · rw [if_neg hd, ih (k + 1) ((e + 100) % U32) (Nat.mod_lt _ U32_pos)]
      constructor
      · rintro ⟨j, hj, hle⟩
        refine ⟨j + 1, by omega, ?_⟩
        rw [Nat.mod_add_mod, show e + 100 + 100 * j = e + 100 * (j + 1) by ring] at hle
        exact hle
      · rintro ⟨j, hj, hle⟩
        cases j with
        | zero =>
          exact absurd ⟨ht, by simpa [Nat.mod_eq_of_lt he] using hle⟩ hd
        | succ j =>
          refine ⟨j, by omega, ?_⟩
          rw [Nat.mod_add_mod, show e + 100 + 100 * j = e + 100 * (j + 1) by ring]
          exact hle

/-- With a zero timeout the deadline branch is dead: every returned
result is success. -/
theorem waitLoop_zero (done : Nat → Bool) :
    ∀ fuel k e r, waitLoop done 0 k e fuel = some r → r.1 = 0 := by
  intro fuel
  induction fuel with
  | zero => intro k e r h; simp [waitLoop] at h
  | succ n ih =>
    intro k e r h
    simp only [waitLoop] at h
    split at h
    · injection h with h2; subst h2; rfl
    · rw [if_neg (by simp)] at h
      exact ih _ _ _ h

/-! ## Claims about NN_WaitDone -/

/-- Claim C2: for every `timeout_us > 0`, against a device that never
sets DONE, `NN_WaitDone` never returns success, and it concludes —
necessarily with the timeout failure `-1` — exactly when the `u32`
elapsed-time accumulator (100µs per poll cycle) reaches or exceeds
`timeout_us` within the allotted iterations. -/
theorem NN_WaitDone_never_done_times_out (t fuel : Nat) (ht : 0 < t) :
    (∀ r, NN_WaitDone neverDone t fuel = some r → r.1 = -1) ∧
    ((NN_WaitDone neverDone t fuel).isSome ↔
      ∃ j, j < fuel ∧ t ≤ (100 * j) % U32) := by
  constructor
  · exact fun r h => waitLoop_never t fuel 0 0 r h
  · have h := waitLoop_isSome_never t ht fuel 0 0 (by decide)
    simpa using h

/-- Witness for C2: `NN_WaitDone(1000)` against a never-done device
returns the timeout failure once accumulated polling reaches 1000µs
(after 10 poll sleeps; 11 iterations of fuel suffice). -/
theorem NN_WaitDone_never_done_times_out_w :
    0 < 1000 ∧
    (∀ r, NN_WaitDone neverDone 1000 11 = some r → r.1 = -1) ∧
    NN_WaitDone neverDone 1000 11 = some (-1, 10) :=
  ⟨by decide, (NN_WaitDone_never_done_times_out 1000 11 (by decide)).1,
    by decide⟩

/-- Claim C3: `NN_WaitDone` with `timeout_us = 0` never returns the
timeout failure, and returns success on the first poll cycle in which
DONE is observed, no matter how many poll cycles (hence how much elapsed
time) that takes. -/
theorem NN_WaitDone_zero_waits_forever (done : Nat → Bool) (fuel : Nat) :
    (∀ r, NN_WaitDone done 0 fuel = some r → r.1 = 0) ∧
    (∀ k, k < fuel → done k = true → (∀ j, j < k → done j = false) →
      NN_WaitDone done 0 fuel = some (0, k)) := by
  constructor
  · exact fun r h => waitLoop_zero done fuel 0 0 r h
  · intro k hk hd hmin
    have h := waitLoop_success done 0 k fuel 0 0 hk (by decide)
      (by simpa using hd) (fun j hj => by simpa using hmin j hj)
      (fun j hj => by simp)
    simpa using h

/-- Witness for C3: a device whose DONE appears on poll 2 makes
`NN_WaitDone(0)` return success after exactly 2 sleeps. -/
theorem NN_WaitDone_zero_waits_forever_w :
    NN_WaitDone doneAtTwo 0 5 = some (0, 2) :=
  (NN_WaitDone_zero_waits_forever doneAtTwo 5).2 2 (by decide) (by decide)
    (by decide)

/-- Claim C10: `NN_WaitDone` only ever returns 0 or -1; DONE is checked
before the deadline on every cycle, so DONE set at entry returns success
with zero sleeps for every timeout, and DONE first observed on any poll
cycle not strictly preceded by a deadline hit — including the cycle at
which the deadline is exactly reached — still yields success. -/
theorem NN_WaitDone_done_checked_first (done : Nat → Bool) (t fuel : Nat) :
    (∀ r, NN_WaitDone done t fuel = some r → r.1 = 0 ∨ r.1 = -1) ∧
    (0 < fuel → done 0 = true → NN_WaitDone done t fuel = some (0, 0)) ∧
    (∀ k, k < fuel → done k = true → (∀ j, j < k → done j = false) →
      (∀ j, j < k → (100 * j) % U32 < t) →
      NN_WaitDone done t fuel = some (0, k)) := by
  refine ⟨fun r h => waitLoop_vals done t fuel 0 0 r h, ?_, ?_⟩
  · intro hf hd
    have h := waitLoop_success done t 0 fuel 0 0 hf (by decide)
      (by simpa using hd) (fun j hj => by omega) (fun j hj => by omega)
    simpa using h
  · intro k hk hd hmin hdl
    have h := waitLoop_success done t k fuel 0 0 hk (by decide)
      (by simpa using hd) (fun j hj => by simpa using hmin j hj)
      (fun j hj => by
        have h2 := hdl j hj
        simp only [Nat.zero_add]
        omega)
    simpa using h

/-- Witness for C10: DONE first observed on poll 10, exactly when a
1000µs deadline has accumulated (`100 * 10 ≥ 1000`), still returns
success, because the DONE check precedes the deadline check. -/
theorem NN_WaitDone_done_checked_first_w :
    NN_WaitDone doneAtTen 1000 11 = some (0, 10) :=
  (NN_WaitDone_done_checked_first doneAtTen 1000 11).2.2 10 (by decide)
    (by decide) (by decide) (by decide)

/-! ## Claims about NN_Init, NN_Configure, NN_RunInference -/

/-- Claim C8: `NN_Init` always returns 0; the -1 failure return its
interface documents is unreachable, for NULL and non-NULL arguments. -/
theorem NN_Init_never_fails (config : Option NN_Config) (st : DriverState) :
    (NN_Init config st).1 = 0 := by
  cases config <;> rfl

/-- Claim C9: `NN_Configure` modifies only the four topology fields of the
held configuration: `base_addr` and `initialized` are left unchanged,
while the four topology fields take the supplied values. -/
theorem NN_Configure_frame (st : DriverState) (a b c d : Nat) :
    (NN_Configure st a b c d).config.base_addr = st.config.base_addr ∧
    (NN_Configure st a b c d).config.initialized = st.config.initialized ∧
    (NN_Configure st a b c d).config.num_inputs = a ∧
    (NN_Configure st a b c d).config.num_hidden1 = b ∧
    (NN_Configure st a b c d).config.num_hidden2 = c ∧
    (NN_Configure st a b c d).config.num_outputs = d :=
  ⟨rfl, rfl, rfl, rfl, rfl, rfl⟩

/-- Claim C5: `NN_Init(NULL)` is idempotent on the held configuration —
a second call leaves the four topology fields unchanged and the
initialized flag 1 after both calls; each call leaves the soft reset
deasserted and the topology pushed to the four configuration registers;
and a supplied configuration replaces the held one wholesale (its
topology and base address are taken verbatim) before the flag is set. -/
theorem NN_Init_idempotent (st : DriverState) (c : NN_Config) :
    ((NN_Init none (NN_Init none st).2).2.config.num_inputs =
        (NN_Init none st).2.config.num_inputs ∧
      (NN_Init none (NN_Init none st).2).2.config.num_hidden1 =
        (NN_Init none st).2.config.num_hidden1 ∧
      (NN_Init none (NN_Init none st).2).2.config.num_hidden2 =
        (NN_Init none st).2.config.num_hidden2 ∧
      (NN_Init none (NN_Init none st).2).2.config.num_outputs =
        (NN_Init none st).2.config.num_outputs ∧
      (NN_Init none st).2.config.initialized = 1 ∧
      (NN_Init none (NN_Init none st).2).2.config.initialized = 1) ∧
    ((NN_Init none st).2.regs.ctrl = 0 ∧
      (NN_Init none st).2.regs.num_in = st.config.num_inputs ∧
      (NN_Init none st).2.regs.num_h1 = st.config.num_hidden1 ∧
      (NN_Init none st).2.regs.num_h2 = st.config.num_hidden2 ∧
      (NN_Init none st).2.regs.num_out = st.config.num_outputs) ∧
    ((NN_Init (some c) st).2.config.base_addr = c.base_addr ∧
      (NN_Init (some c) st).2.config.num_inputs = c.num_inputs ∧
      (NN_Init (some c) st).2.config.num_hidden1 = c.num_hidden1 ∧
      (NN_Init (some c) st).2.config.num_hidden2 = c.num_hidden2 ∧
      (NN_Init (some c) st).2.config.num_outputs = c.num_outputs ∧
      (NN_Init (some c) st).2.config.initialized = 1) :=
  ⟨⟨rfl, rfl, rfl, rfl, rfl, rfl⟩, ⟨rfl, rfl, rfl, rfl, rfl⟩,
    ⟨rfl, rfl, rfl, rfl, rfl, rfl⟩⟩

/-- `NN_WaitDone` at the fixed 10-second timeout of `NN_RunInference`
returns success after `k` sleeps when DONE is first observed on poll
`k ≤ 100000`. -/
theorem waitDone_run_success (done : Nat → Bool) (k : Nat)
    (hk : k ≤ 100000) (hd : done k = true)
    (hmin : ∀ j, j < k → done j = false) :
    NN_WaitDone done 10000000 RUN_FUEL = some (0, k) := by
  have h := waitLoop_success done 10000000 k RUN_FUEL 0 0
    (by simp only [RUN_FUEL]; omega) (by decide)
    (by simpa using hd) (fun j hj => by simpa using hmin j hj)
    (fun j hj => by
      rintro ⟨-, hle⟩
      have hlt : 100 * j < U32 := by simp only [U32]; omega
      rw [Nat.zero_add, Nat.mod_eq_of_lt hlt] at hle
      omega)
  simpa using h

/-- `NN_WaitDone` at the fixed 10-second timeout of `NN_RunInference`
returns the timeout failure after exactly 100000 sleeps when DONE is not
observed through poll 100000. -/
theorem waitDone_run_timeout (done : Nat → Bool)
    (h : ∀ k, k ≤ 100000 → done k = false) :
    NN_WaitDone done 10000000 RUN_FUEL = some (-1, 100000) := by
  have h2 := waitLoop_timeout done 10000000 100000 RUN_FUEL 0 0
    (by simp only [RUN_FUEL]; omega) (by decide)
    (fun j hj => by simpa using h j hj)
    (fun j hj => by
      rintro ⟨-, hle⟩
      have hlt : 100 * j < U32 := by simp only [U32]; omega
      rw [Nat.zero_add, Nat.mod_eq_of_lt hlt] at hle
      omega)
    (by decide)
    (by rw [Nat.zero_add, Nat.mod_eq_of_lt (by decide)])
  simpa using h2

/-- The state `NN_RunInference` leaves behind: lazy init when the flag is
0, then start; the wait does not change driver-visible state. -/
theorem NN_RunInference_state (done : Nat → Bool) (st : DriverState) :
    (NN_RunInference done st).2 =
      NN_Start (if st.config.initialized = 0 then (NN_Init none st).2
        else st) := by
  unfold NN_RunInference
  cases h : NN_WaitDone done 10000000 RUN_FUEL with
  | none => rfl
  | some rk =>
    obtain ⟨r, k⟩ := rk
    by_cases hr : r < 0 <;> simp [hr]

/-- Claim C6: `NN_RunInference` initializes with defaults exactly when the
held configuration is not yet initialized, then issues start (the final
state is `NN_Start` of the lazily-initialized state), then waits with the
fixed 10000000µs timeout: it returns -1 exactly when that wait times out
— i.e. when DONE is not observed during any of the polls up to the
deadline (100 * 100000 ≥ 10000000) — and 0 otherwise. -/
theorem NN_RunInference_spec (done : Nat → Bool) (st : DriverState) :
    ((NN_RunInference done st).2 =
      NN_Start (if st.config.initialized = 0 then (NN_Init none st).2
        else st)) ∧
    ((NN_RunInference done st).1 = -1 ∨ (NN_RunInference done st).1 = 0) ∧
    ((NN_RunInference done st).1 = -1 ↔
      ∀ k, k ≤ 100000 → done k = false) := by
  refine ⟨NN_RunInference_state done st, ?_⟩
  by_cases hall : ∀ k, k ≤ 100000 → done k = false
  · have hw := waitDone_run_timeout done hall
    unfold NN_RunInference
    rw [hw]
    norm_num
    exact hall
  · push_neg at hall
    obtain ⟨k, hk, hdk⟩ := hall
    have hex : ∃ j, done j = true := ⟨k, by simpa using hdk⟩
    have hk0 : Nat.find hex ≤ k := Nat.find_min' hex (by simpa using hdk)
    have hw := waitDone_run_success done (Nat.find hex) (le_trans hk0 hk)
      (Nat.find_spec hex)
      (fun j hj => by
        have := Nat.find_min hex hj
        simpa using this)
    unfold NN_RunInference
    rw [hw]
    norm_num
    exact ⟨Nat.find hex, le_trans hk0 hk, Nat.find_spec hex⟩

/-! ## Claims about the result interpreter -/

/-- Loop invariant for `classifyLoop` over a background list `l`:
`rest` is the suffix of `l` from position `i`, `max_idx < i` holds the
value `max_val`, every scanned position is `≤ max_val`, and every
position strictly before `max_idx` is `< max_val`.  The loop then lands
on the first position of `l` attaining the overall maximum. -/
theorem classifyLoop_spec (l : List Int) :
    ∀ (rest : List Int) (i max_idx : Nat) (max_val : Int),
      l.length = i + rest.length →
      (∀ k, k < rest.length → rest.getD k 0 = l.getD (i + k) 0) →
      max_idx < i →
      l.getD max_idx 0 = max_val →
      (∀ j, j < i → l.getD j 0 ≤ max_val) →
      (∀ j, j < max_idx → l.getD j 0 < max_val) →
      (classifyLoop rest i max_idx max_val).1 < l.length ∧
      l.getD (classifyLoop rest i max_idx max_val).1 0 =
        (classifyLoop rest i max_idx max_val).2 ∧
      (∀ j, j < l.length →
        l.getD j 0 ≤ (classifyLoop rest i max_idx max_val).2) ∧
      (∀ j, j < (classifyLoop rest i max_idx max_val).1 →
        l.getD j 0 < (classifyLoop rest i max_idx max_val).2) := by
  intro rest
  induction rest with
  | nil =>
    intro i mi mv hlen _ hmi hval hub hstrict
    simp only [classifyLoop]
    simp only [List.length_nil, Nat.add_zero] at hlen
    exact ⟨by omega, hval, fun j hj => hub j (by omega), hstrict⟩
  | cons v rest ih =>
    intro i mi mv hlen hsuffix hmi hval hub hstrict
    have hv : v = l.getD i 0 := by
      have := hsuffix 0 (by simp)
      simpa using this
    have hlen2 : l.length = (i + 1) + rest.length := by
      simp only [List.length_cons] at hlen
      omega
    have hsuffix2 : ∀ k, k < rest.length →
        rest.getD k 0 = l.getD (i + 1 + k) 0 := by
      intro k hk
      have := hsuffix (k + 1) (by simp; omega)
      simpa [show i + (k + 1) = i + 1 + k by omega] using this
    simp only [classifyLoop]
    by_cases hlt : mv < v
    · rw [if_pos hlt]
      exact ih (i + 1) i v hlen2 hsuffix2 (by omega) hv.symm
        (fun j hj => by
          rcases Nat.lt_succ_iff_lt_or_eq.mp hj with hj2 | hj2
          · exact le_of_lt (lt_of_le_of_lt (hub j hj2) hlt)
          · subst hj2; exact le_of_eq hv.symm)
        (fun j hj => lt_of_le_of_lt (hub j hj) hlt)
    · rw [if_neg hlt]
      push_neg at hlt
      exact ih (i + 1) mi mv hlen2 hsuffix2 (by omega) hval
        (fun j hj => by
          rcases Nat.lt_succ_iff_lt_or_eq.mp hj with hj2 | hj2
          · exact hub j hj2
          · subst hj2; exact hv ▸ hlt)
        hstrict

/-- Claim C1: on every non-empty output vector, `NN_Classify` returns the
lowest index attaining the maximum: the result is in range, its value
bounds every element, and every earlier element is strictly below it (so
a later element equal to the running maximum never replaces it); in
particular `[5, 5, 3, 5, 0]` classifies to index 0. -/
theorem NN_Classify_first_argmax (v : Int) (rest : List Int) :
    (NN_Classify (v :: rest) < (v :: rest).length ∧
      (∀ j, j < (v :: rest).length →
        (v :: rest).getD j 0 ≤
          (v :: rest).getD (NN_Classify (v :: rest)) 0) ∧
      (∀ j, j < NN_Classify (v :: rest) →
        (v :: rest).getD j 0 <
          (v :: rest).getD (NN_Classify (v :: rest)) 0)) ∧
    NN_Classify [5, 5, 3, 5, 0] = 0 := by
  refine ⟨?_, by decide⟩
  have h := classifyLoop_spec (v :: rest) rest 1 0 v
    (by simp only [List.length_cons]; omega)
    (fun k hk => by
      rw [show 1 + k = k + 1 by omega, List.getD_cons_succ])
    (by omega) (by simp)
    (fun j hj => by
      have : j = 0 := by omega
      subst this; simp)
    (fun j hj => by omega)
  obtain ⟨h1, h2, h3, h4⟩ := h
  have hc : NN_Classify (v :: rest) = (classifyLoop rest 1 0 v).1 := rfl
  rw [hc]
  rw [h2]
  exact ⟨h1, h3, h4⟩

/-- On a list of zeros, the confidence summation loop returns its
accumulator. -/
theorem confSum_zeros (l : List Int) (hz : ∀ x ∈ l, x = 0) :
    ∀ a : ℚ, l.foldl (fun s v => s + FIXED_TO_FLOAT v) a = a := by
  induction l with
  | nil => intro a; rfl
  | cons x l ih =>
    intro a
    have hx : x = 0 := hz x (by simp)
    have hz2 : ∀ y ∈ l, y = 0 := fun y hy => hz y (by simp [hy])
    simp only [List.foldl_cons, hx]
    rw [show FIXED_TO_FLOAT 0 = 0 by simp [FIXED_TO_FLOAT]]
    rw [add_zero]
    exact ih hz2 a

/-- Claim C4: for a valid class index, `NN_GetConfidence` returns
`selected / sum` when the float sum of all samples is strictly positive,
and the float value of the selected sample unmodified otherwise; in particular
an all-zero output vector yields the raw selected value 0, not a
division result. -/
theorem NN_GetConfidence_spec (l : List Int) (i : Nat) (hi : i < l.length) :
    (0 < confSum l →
      NN_GetConfidence l i = FIXED_TO_FLOAT (l.getD i 0) / confSum l) ∧
    (confSum l ≤ 0 →
      NN_GetConfidence l i = FIXED_TO_FLOAT (l.getD i 0)) ∧
    ((∀ x ∈ l, x = 0) → NN_GetConfidence l i = 0) := by
  refine ⟨?_, ?_, ?_⟩
  · intro hpos
    simp [NN_GetConfidence, hpos]
  · intro hle
    simp [NN_GetConfidence, not_lt.mpr hle]
  · intro hz
    have hsum : confSum l = 0 := confSum_zeros l hz 0
    have hsel : l.getD i 0 = 0 := by
      have hmem : l.getD i 0 ∈ l := by
        rw [List.getD_eq_getElem l 0 hi]
        exact List.getElem_mem hi
      exact hz _ hmem
    have hval : NN_GetConfidence l i = FIXED_TO_FLOAT (l.getD i 0) := by
      simp [NN_GetConfidence, hsum]
    rw [hval, hsel]
    simp [FIXED_TO_FLOAT]

/-- Witness for C4: the all-zero vector `[0, 0, 0]` at class index 1
yields confidence 0 (the raw selected value), not a division result. -/
theorem NN_GetConfidence_spec_w : NN_GetConfidence [0, 0, 0] 1 = 0 :=
  (NN_GetConfidence_spec [0, 0, 0] 1 (by decide)).2.2 (by decide)

/-! ## Claim about the fixed-point conversions -/

/-- `toS16` is the identity on the `s16` range. -/
theorem toS16_id (n : Int) (h1 : -32768 ≤ n) (h2 : n ≤ 32767) :
    toS16 n = n := by
  unfold toS16
  omega

/-- Truncation toward zero moves a rational by at most 1. -/
theorem truncQ_close (q : ℚ) : |(truncQ q : ℚ) - q| ≤ 1 := by
  unfold truncQ
  by_cases h : 0 ≤ q
  · rw [if_pos h]
    have h1 : ((⌊q⌋ : Int) : ℚ) ≤ q := Int.floor_le q
    have h2 : q < ⌊q⌋ + 1 := Int.lt_floor_add_one q
    rw [abs_le]
    constructor <;> linarith
  · rw [if_neg h]
    have h1 : q ≤ ((⌈q⌉ : Int) : ℚ) := Int.le_ceil q
    have h2 : ((⌈q⌉ : Int) : ℚ) < q + 1 := Int.ceil_lt_add_one q
    rw [abs_le]
    constructor <;> linarith

/-- Truncation toward zero of a rational in `[-32768, 32768)` lands in
the `s16` range. -/
theorem truncQ_bounds (q : ℚ) (hl : -32768 ≤ q) (hu : q < 32768) :
    -32768 ≤ truncQ q ∧ truncQ q ≤ 32767 := by
  unfold truncQ
  by_cases h : 0 ≤ q
  · rw [if_pos h]
    refine ⟨?_, ?_⟩
    · have h1 : (0 : Int) ≤ ⌊q⌋ := Int.floor_nonneg.mpr h
      omega
    · have h1 : ⌊q⌋ < 32768 := by
        rw [Int.floor_lt]
        exact_mod_cast hu
      omega
  · rw [if_neg h]
    push_neg at h
    refine ⟨?_, ?_⟩
    · have h1 : (-32768 : ℚ) ≤ ((⌈q⌉ : Int) : ℚ) :=
        le_trans hl (Int.le_ceil q)
      exact_mod_cast h1
    · have h1 : ⌈q⌉ ≤ (0 : Int) := Int.ceil_le.mpr (by exact_mod_cast le_of_lt h)
      omega

/-- Claim C7: for every rational `f` within the Q4.11 range, converting
with `FLOAT_TO_FIXED` (truncation-toward-zero multiply-by-2048-then-cast)
and back with `FIXED_TO_FLOAT` (divide by 2048) lands within one unit in
the last place (1/2048) of `f`. -/
theorem fixed_point_roundtrip (f : ℚ) (h1 : -16 ≤ f) (h2 : f < 16) :
    |FIXED_TO_FLOAT (FLOAT_TO_FIXED f) - f| ≤ 1 / 2048 := by
  have hs : (NN_SCALE : ℚ) = 2048 := by norm_num [NN_SCALE, NN_FRAC_BITS]
  have hql : (-32768 : ℚ) ≤ f * 2048 := by nlinarith
  have hqu : f * 2048 < 32768 := by nlinarith
  obtain ⟨hb1, hb2⟩ := truncQ_bounds (f * 2048) hql hqu
  have hfix : FLOAT_TO_FIXED f = truncQ (f * 2048) := by
    simp only [FLOAT_TO_FIXED, hs]
    exact toS16_id _ hb1 hb2
  rw [hfix]
  have hclose := truncQ_close (f * 2048)
  have heq : FIXED_TO_FLOAT (truncQ (f * 2048)) - f =
      ((truncQ (f * 2048) : ℚ) - f * 2048) / 2048 := by
    simp only [FIXED_TO_FLOAT, hs]
    ring
  rw [heq, abs_div, abs_of_pos (by norm_num : (0 : ℚ) < 2048)]
  gcongr

/-- Witness for C7: the representable value 3/2 (raw 3072 = 3/2 * 2048)
round-trips to within 1/2048. -/
theorem fixed_point_roundtrip_w :
    (-16 ≤ (3 / 2 : ℚ) ∧ (3 / 2 : ℚ) < 16) ∧
    |FIXED_TO_FLOAT (FLOAT_TO_FIXED (3 / 2 : ℚ)) - 3 / 2| ≤ 1 / 2048 :=
  ⟨⟨by norm_num, by norm_num⟩,
    fixed_point_roundtrip (3 / 2) (by norm_num) (by norm_num)⟩
